import Mathlib

/-!
Verification of the trr workspace lifecycle manager (Rust sources under
src/create.rs, src/delete.rs, src/config.rs, src/main.rs) against its
specification.

Modelling conventions of the shallow embedding:
* Rust strings are modelled as lists of characters (`List Char`).
* Every external effect is made explicit: the filesystem and tmux server
  become a `World` value threaded through the orchestrators; subprocess
  calls (the alias shell, rsync, git, tmux, skim, stdin) become oracle
  parameters; `Ulid::new()` and `Utc::now()` become parameters.
* The serde_json codec is external to this crate, so `serde_json::from_str`
  is an oracle `parse : List Char -> Option RepositoryMetadata` (none when
  deserialization fails) and `serde_json::to_string_pretty` is an oracle
  `ser : RepositoryMetadata -> List Char`; theorems that need the codec
  round trip take it as a hypothesis, which is serde's documented contract.
* Fallible Rust calls returning `Result` are modelled with `Option` or
  `Except (List Char)`.
-/

/-- Characters of the trimmed string: models Rust `str::trim`, which removes
whitespace from both ends. -/
def trimChars (s : List Char) : List Char :=
  ((s.dropWhile Char.isWhitespace).reverse.dropWhile Char.isWhitespace).reverse

/-- Embeds `RepositoryMetadata` (src/create.rs lines 10-16). The timestamp is
modelled as a natural number at the stored precision. -/
structure RepositoryMetadata where
  branch : List Char
  created_at : Nat
  directory : Option (List Char)
deriving DecidableEq

/-- Embeds `branch_to_directory_name` (src/create.rs lines 80-82):
`branch.replace of the slash character by the one-character string "-"`,
written as the match-by-match replacement that `str::replace` performs. -/
def branch_to_directory_name : List Char → List Char
  | [] => []
  | c :: rest => (if c = '/' then "-".data else [c]) ++ branch_to_directory_name rest

/-- Directory naming rule as the specification words it: the branch with each
path-separator character replaced by a hyphen. -/
def directoryNameSpec (branch : List Char) : List Char :=
  branch.map (fun c => if c = '/' then '-' else c)

/-- Embeds `read_ulid_metadata` (src/create.rs lines 18-32). The
`fs::read_to_string` result is the `readResult` argument (`none` on an I/O
error), `serde_json::from_str` is the `parse` oracle, and `Utc::now()` is the
`now` argument. -/
def read_ulid_metadata (readResult : Option (List Char))
    (parse : List Char → Option RepositoryMetadata) (now : Nat) :
    Option RepositoryMetadata :=
  match readResult with
  | none => none
  | some content =>
    match parse content with
    | some m => some m
    | none =>
      let branch := trimChars content
      some { branch := branch, created_at := now,
             directory := some (branch_to_directory_name branch) }

/-- Embeds `expand_alias` (src/create.rs lines 63-78). The `HashMap`
iteration order is the list order of `aliases`; a shell-directive expansion
(leading exclamation mark) calls the `shell` oracle, which returns `none`
when the subprocess cannot be spawned and otherwise the captured stdout. -/
def expand_alias (branch : List Char) (aliases : List (List Char × List Char))
    (shell : List Char → Option (List Char)) : List Char :=
  match aliases with
  | [] => branch
  | (a, expansion) :: rest =>
    if a.isPrefixOf branch then
      let suffix := branch.drop a.length
      match expansion with
      | '!' :: cmd =>
        match shell cmd with
        | some out => trimChars out ++ suffix
        | none => expand_alias branch rest shell
      | _ => expansion ++ suffix
    else expand_alias branch rest shell

/-- Embeds `Config` and `Settings` (src/config.rs lines 8-19), flattened into
one structure; `branch_aliases` is kept as an association list in iteration
order. -/
structure Config where
  repo_sync_path : List Char
  tmux_window_init_commands : List Char
  rsync_excludes : List (List Char)
  branch_aliases : List (List Char × List Char)
deriving DecidableEq

/-- One file inside the record-store directory: its file name and the result
of `fs::read_to_string` on it (`none` when the entry is unreadable). -/
structure SysEntry where
  name : List Char
  content : Option (List Char)
deriving DecidableEq

/-- The outside state the orchestrators read and mutate: existing
directories, the record-store files, and the tmux window and session lists. -/
structure World where
  fs_dirs : List (List Char)
  sys_files : List SysEntry
  tmux_windows : List (List Char)
  tmux_sessions : List (List Char)
deriving DecidableEq

/-- Models `PathBuf::from(a).join(b)` for the relative component paths this
program builds. -/
def pathJoin (a b : List Char) : List Char := a ++ "/".data ++ b

/-- Models `fs::create_dir_all` at the level of directory existence. -/
def insertDir (d : List Char) (ds : List (List Char)) : List (List Char) :=
  if d ∈ ds then ds else ds ++ [d]

/-! ## Claims about the naming rule and record parsing -/

/-- C5: `branch_to_directory_name` is a pure function of the branch string:
equal branches always yield equal directory names, and for every branch the
result equals the branch with each path-separator character replaced by a
hyphen (the specification-side `directoryNameSpec`). -/
theorem C5_directory_name_pure_spec :
    (∀ b₁ b₂ : List Char, b₁ = b₂ →
      branch_to_directory_name b₁ = branch_to_directory_name b₂) ∧
    (∀ b : List Char, branch_to_directory_name b = directoryNameSpec b) := by
  refine ⟨fun b₁ b₂ h => h ▸ rfl, fun b => ?_⟩
  induction b with
  | nil => rfl
  | cons c rest ih =>
    simp only [branch_to_directory_name, directoryNameSpec, List.map_cons]
    by_cases hc : c = '/' <;> simp [hc, ih, directoryNameSpec]

/-- Witness for C5 at the end-to-end example of the specification. -/
theorem C5_witness :
    branch_to_directory_name "feature/login".data =
      branch_to_directory_name "feature/login".data ∧
    branch_to_directory_name "feature/login".data = "feature-login".data := by
  refine ⟨C5_directory_name_pure_spec.1 _ _ rfl, ?_⟩
  rw [C5_directory_name_pure_spec.2 "feature/login".data]
  decide

/-- C6: a legacy plain-text record file whose entire content is a bare branch
name parses into a record carrying that branch, the naming rule applied to it
as directory, and the freshly assigned timestamp. -/
theorem C6_legacy_parse (content : List Char)
    (parse : List Char → Option RepositoryMetadata) (now : Nat)
    (hparse : parse content = none) (hbare : trimChars content = content) :
    read_ulid_metadata (some content) parse now =
      some { branch := content, created_at := now,
             directory := some (branch_to_directory_name content) } := by
  simp only [read_ulid_metadata, hparse, hbare]

/-- Witness for C6 at the example of the specification. -/
theorem C6_witness :
    read_ulid_metadata (some "feature/legacy".data) (fun _ => none) 0 =
      some { branch := "feature/legacy".data, created_at := 0,
             directory := some "feature-legacy".data } := by
  have h := C6_legacy_parse "feature/legacy".data (fun _ => none) 0 rfl (by decide)
  exact h.trans (by decide)

/-- C8: when no alias token in the table is a prefix of the raw branch token,
`expand_alias` is the identity function. -/
theorem C8_no_match_identity (branch : List Char)
    (aliases : List (List Char × List Char)) (shell : List Char → Option (List Char))
    (h : ∀ p ∈ aliases, p.1.isPrefixOf branch = false) :
    expand_alias branch aliases shell = branch := by
  induction aliases with
  | nil => rfl
  | cons p rest ih =>
    obtain ⟨a, e⟩ := p
    have ha : a.isPrefixOf branch = false := h (a, e) (List.mem_cons_self _ _)
    simp only [expand_alias, ha, Bool.false_eq_true, if_false]
    exact ih fun q hq => h q (List.mem_cons_of_mem _ hq)

/-- Witness for C8 on the default alias table. -/
theorem C8_witness :
    expand_alias "main".data
      [("@f".data, "feature".data), ("@b".data, "bugfix".data)]
      (fun _ => none) = "main".data :=
  C8_no_match_identity _ _ _ (by decide)

/-- C10: `read_ulid_metadata` returns an error exactly when reading the file
content fails; every successfully read content yields a record, and content
the structured parser rejects is accepted as a legacy branch name after
trimming, so a parse-level corrupt-record failure is unreachable. -/
theorem C10_read_error_iff (parse : List Char → Option RepositoryMetadata) (now : Nat) :
    (∀ r : Option (List Char),
      (read_ulid_metadata r parse now).isSome ↔ r.isSome) ∧
    (∀ content : List Char, parse content = none →
      read_ulid_metadata (some content) parse now =
        some { branch := trimChars content, created_at := now,
               directory := some (branch_to_directory_name (trimChars content)) }) := by
  constructor
  · intro r
    cases r with
    | none => simp [read_ulid_metadata]
    | some content =>
      simp only [read_ulid_metadata]
      cases h : parse content <;> simp
  · intro content h
    simp [read_ulid_metadata, h]

/-- Witness for C10 on the empty content, which the structured parser
rejects and the legacy path accepts. -/
theorem C10_witness :
    read_ulid_metadata (some "".data) (fun _ => none) 3 =
      some { branch := trimChars "".data, created_at := 3,
             directory := some (branch_to_directory_name (trimChars "".data)) } :=
  (C10_read_error_iff (fun _ => none) 3).2 "".data rfl

/-! ## Claims about alias expansion failure and literal expansion -/

/-- C1 counterexample: the token matches the shell-directive alias entry and
the shell spawn fails, yet the result is not the raw token: the scan falls
through to a later matching alias, whose literal expansion is returned. -/
theorem C1_counterexample :
    ("@f".data.isPrefixOf "@f/t".data) = true ∧
    ("!boom".data.head? = some '!') ∧
    expand_alias "@f/t".data
      [("@f".data, "!boom".data), ("@".data, "x".data)]
      (fun _ => none) ≠ "@f/t".data := by
  refine ⟨by decide, by decide, by decide⟩

/-- C1 amended: when every alias entry whose token is a prefix of the raw
token is a shell directive whose execution fails, `expand_alias` returns the
raw token unchanged, surfacing no error; a single failed shell expansion only
makes the scan continue with the remaining alias entries. -/
theorem C1_amended_fallthrough (branch : List Char)
    (aliases : List (List Char × List Char)) (shell : List Char → Option (List Char))
    (h : ∀ p ∈ aliases, p.1.isPrefixOf branch = true →
      p.2.head? = some '!' ∧ shell p.2.tail = none) :
    expand_alias branch aliases shell = branch := by
  induction aliases with
  | nil => rfl
  | cons p rest ih =>
    obtain ⟨a, e⟩ := p
    have hrest : expand_alias branch rest shell = branch :=
      ih fun q hq => h q (List.mem_cons_of_mem _ hq)
    by_cases ha : a.isPrefixOf branch
    · obtain ⟨hhead, hsh⟩ := h (a, e) (List.mem_cons_self _ _) ha
      cases e with
      | nil => simp at hhead
      | cons c cs =>
        have hc : c = '!' := by simpa using hhead
        subst hc
        have hcs : shell cs = none := by simpa using hsh
        simp only [expand_alias, ha, if_true, hcs]
        exact hrest
    · simp only [expand_alias, ha, Bool.false_eq_true, if_false]
      exact hrest

/-- Witness for the amended C1: a lone failing shell-directive alias leaves
the raw token unchanged. -/
theorem C1_witness :
    expand_alias "@f/x".data [("@f".data, "!boom".data)] (fun _ => none) =
      "@f/x".data :=
  C1_amended_fallthrough _ _ _ (by decide)

/-- C9 counterexample: the literal alias entry is shadowed by an earlier
matching entry of the table, so the token of the form a+suffix does not
expand to e+suffix for that entry. -/
theorem C9_counterexample :
    (("@f".data, "feature".data) ∈
      [("@".data, "x".data), ("@f".data, "feature".data)]) ∧
    expand_alias ("@f".data ++ "/t".data)
      [("@".data, "x".data), ("@f".data, "feature".data)]
      (fun _ => none) ≠ "feature".data ++ "/t".data := by
  refine ⟨by decide, by decide⟩

/-- C9 amended: for every alias entry a→e with literal expansion e that is
the first entry whose alias token is a prefix of the token a+suffix,
`expand_alias` yields e+suffix, the expansion followed by the token with the
alias prefix stripped. -/
theorem C9_first_match_literal (pre post : List (List Char × List Char))
    (a e suffix : List Char) (shell : List Char → Option (List Char))
    (hlit : e.head? ≠ some '!')
    (hpre : ∀ p ∈ pre, p.1.isPrefixOf (a ++ suffix) = false) :
    expand_alias (a ++ suffix) (pre ++ (a, e) :: post) shell = e ++ suffix := by
  induction pre with
  | nil =>
    have ha : a.isPrefixOf (a ++ suffix) = true := by
      rw [List.isPrefixOf_iff_prefix]
      exact List.prefix_append a suffix
    simp only [List.nil_append, expand_alias, ha, if_true]
    cases e with
    | nil => simp [List.drop_left]
    | cons c cs =>
      by_cases hc : c = '!'
      · exact absurd (by simp [hc]) hlit
      · have : (match (c :: cs : List Char) with
            | '!' :: cmd =>
              match shell cmd with
              | some out => trimChars out ++ (a ++ suffix).drop a.length
              | none => expand_alias (a ++ suffix) post shell
            | _ => (c :: cs : List Char) ++ (a ++ suffix).drop a.length) =
            (c :: cs : List Char) ++ (a ++ suffix).drop a.length := by
          split
          · rename_i cmd heq
            injection heq with h1 _
            exact absurd h1 hc
          · rfl
        rw [this, List.drop_left]
  | cons p rest ih =>
    obtain ⟨a', e'⟩ := p
    have ha' : a'.isPrefixOf (a ++ suffix) = false :=
      hpre (a', e') (List.mem_cons_self _ _)
    simp only [List.cons_append, expand_alias, ha', Bool.false_eq_true, if_false]
    exact ih fun q hq => hpre q (List.mem_cons_of_mem _ hq)

/-- Witness for the amended C9 at the default @f→feature alias of the
specification's end-to-end example. -/
theorem C9_witness :
    expand_alias ("@f".data ++ "/login".data) [("@f".data, "feature".data)]
      (fun _ => none) = "feature".data ++ "/login".data :=
  C9_first_match_literal [] [] "@f".data "feature".data "/login".data _
    (by decide) (by decide)

/-! ## Creation orchestrator -/

/-- Events recording the externally visible steps `create_repo` performs, in
their order of execution. -/
inductive CreateEvent
  | allocUlid (id : List Char)
  | createDirAll (path : List Char)
  | writeRecord (file : List Char) (m : RepositoryMetadata)
  | rsyncCopy (src dst : List Char)
  | gitCheckoutNewBranch (branch : List Char) (dir : List Char)
  | tmuxSetup (branch : List Char) (dir : List Char)
deriving DecidableEq

/-- Oracles for the environment of `create_repo`: the alias shell, the fresh
`Ulid::new()` value, `Utc::now()`, `std::env::current_dir()` (none on
failure), `serde_json::to_string_pretty`, and the exit status of the rsync,
git and tmux subprocess steps. -/
structure CreateOracles where
  shell : List Char → Option (List Char)
  ulid : List Char
  now : Nat
  current_dir : Option (List Char)
  ser : RepositoryMetadata → List Char
  rsyncOk : Bool
  gitOk : Bool
  tmuxOk : Bool

/-- Embeds `create_repo` (src/create.rs lines 255-350). Returns the result,
the final world, and the events performed; console output and the debug flag
(which only changes logging and rsync verbosity) are not modelled. -/
def create_repo (branch : List Char) (cfg : Config) (o : CreateOracles) (w : World) :
    Except (List Char) Unit × World × List CreateEvent :=
  let expanded_branch := expand_alias branch cfg.branch_aliases o.shell
  let directory_name := branch_to_directory_name expanded_branch
  let target_dir := pathJoin cfg.repo_sync_path directory_name
  if target_dir ∈ w.fs_dirs then
    (.error ("Directory ".data ++ target_dir ++
       " already exists. Use a different branch name or delete the existing one first.".data),
     w, [])
  else
    match o.current_dir with
    | none => (.error "failed to get current directory".data, w, [.allocUlid o.ulid])
    | some current_dir =>
      let trr_sys_path := pathJoin cfg.repo_sync_path ".trr-sys".data
      let metadata : RepositoryMetadata :=
        { branch := expanded_branch, created_at := o.now,
          directory := some directory_name }
      let ulid_file := o.ulid ++ ".json".data
      let w3 : World :=
        { w with
          fs_dirs := insertDir target_dir (insertDir trr_sys_path w.fs_dirs),
          sys_files := w.sys_files ++ [⟨ulid_file, some (o.ser metadata)⟩] }
      let events := [CreateEvent.allocUlid o.ulid, .createDirAll trr_sys_path,
                     .writeRecord ulid_file metadata, .createDirAll target_dir]
      let absolute_target_dir := pathJoin current_dir target_dir
      if o.rsyncOk then
        if o.gitOk then
          if o.tmuxOk then
            (.ok (), w3, events ++
              [.rsyncCopy current_dir target_dir,
               .gitCheckoutNewBranch expanded_branch absolute_target_dir,
               .tmuxSetup expanded_branch absolute_target_dir])
          else
            (.error "tmux setup failed".data, w3, events ++
              [.rsyncCopy current_dir target_dir,
               .gitCheckoutNewBranch expanded_branch absolute_target_dir,
               .tmuxSetup expanded_branch absolute_target_dir])
        else
          (.error "Failed to create git branch".data, w3, events ++
            [.rsyncCopy current_dir target_dir,
             .gitCheckoutNewBranch expanded_branch absolute_target_dir])
      else
        (.error "rsync failed".data, w3, events ++ [.rsyncCopy current_dir target_dir])

/-- C3: when the derived target directory already exists under the sync
root, `create_repo` fails with the descriptive error before any identifier
is allocated; the world is unchanged and no event at all has happened. -/
theorem C3_precheck_no_mutation (branch : List Char) (cfg : Config)
    (o : CreateOracles) (w : World)
    (h : pathJoin cfg.repo_sync_path
        (branch_to_directory_name (expand_alias branch cfg.branch_aliases o.shell)) ∈
        w.fs_dirs) :
    create_repo branch cfg o w =
      (.error ("Directory ".data ++
        pathJoin cfg.repo_sync_path
          (branch_to_directory_name (expand_alias branch cfg.branch_aliases o.shell)) ++
        " already exists. Use a different branch name or delete the existing one first.".data),
       w, []) := by
  simp only [create_repo, h, if_true]

/-- Witness for C3. -/
theorem C3_witness :
    create_repo "b".data ⟨".trr".data, [], [], []⟩
      ⟨fun _ => none, "01".data, 0, some "/cur".data, fun _ => [], true, true, true⟩
      ⟨[pathJoin ".trr".data "b".data], [], [], []⟩ =
      (.error ("Directory ".data ++ pathJoin ".trr".data "b".data ++
        " already exists. Use a different branch name or delete the existing one first.".data),
       ⟨[pathJoin ".trr".data "b".data], [], [], []⟩, []) :=
  C3_precheck_no_mutation "b".data ⟨".trr".data, [], [], []⟩
    ⟨fun _ => none, "01".data, 0, some "/cur".data, fun _ => [], true, true, true⟩
    ⟨[pathJoin ".trr".data "b".data], [], [], []⟩ (by decide)

/-! ## Record-store enumeration -/

/-- Embeds `Repository` (src/delete.rs lines 12-19); `path` is the record
file name inside the store directory. -/
structure Repository where
  _ulid : List Char
  branch : List Char
  directory : List Char
  path : List Char
  created_at : Nat
deriving DecidableEq

/-- Lexicographic character order modelling Rust `str::cmp` as used by the
sort of `get_repositories`. -/
def leChars : List Char → List Char → Bool
  | [], _ => true
  | _ :: _, [] => false
  | a :: as, b :: bs => if a = b then leChars as bs else decide (a < b)

/-- One insertion step of the sort modelling `Vec::sort_by` on the branch
field. -/
def insertByBranch (r : Repository) : List Repository → List Repository
  | [] => [r]
  | x :: xs =>
    if leChars x.branch r.branch then x :: insertByBranch r xs else r :: x :: xs

/-- The sort of `get_repositories`: `repositories.sort_by` comparing the
branch fields. -/
def sortByBranch : List Repository → List Repository
  | [] => []
  | x :: xs => insertByBranch x (sortByBranch xs)

/-- Models `file_name.strip_suffix of .json with unwrap_or on the file name`
(src/delete.rs line 73). -/
def stripJsonSuffix (file_name : List Char) : List Char :=
  if ".json".data.isSuffixOf file_name then file_name.take (file_name.length - 5)
  else file_name

/-- Embeds `get_repositories` (src/delete.rs lines 57-92): entries whose read
fails are skipped, records missing a directory recompute it with the naming
rule, and the result is sorted by branch. -/
def get_repositories (sync_path : List Char) (w : World)
    (parse : List Char → Option RepositoryMetadata) (now : Nat) : List Repository :=
  if pathJoin sync_path ".trr-sys".data ∈ w.fs_dirs then
    sortByBranch (w.sys_files.filterMap fun entry =>
      match read_ulid_metadata entry.content parse now with
      | some metadata =>
        some { _ulid := stripJsonSuffix entry.name,
               branch := metadata.branch,
               directory := metadata.directory.getD
                 (branch_to_directory_name metadata.branch),
               path := entry.name,
               created_at := metadata.created_at }
      | none => none)
  else []

theorem mem_insertDir_self (d : List Char) (ds : List (List Char)) :
    d ∈ insertDir d ds := by
  unfold insertDir
  split
  · assumption
  · simp

theorem mem_insertDir_of_mem {x d : List Char} {ds : List (List Char)}
    (h : x ∈ ds) : x ∈ insertDir d ds := by
  unfold insertDir
  split
  · exact h
  · exact List.mem_append_left _ h

theorem mem_insertByBranch {y r : Repository} {l : List Repository} :
    y ∈ insertByBranch r l ↔ y = r ∨ y ∈ l := by
  induction l with
  | nil => simp [insertByBranch]
  | cons x xs ih =>
    unfold insertByBranch
    split
    · simp only [List.mem_cons, ih]
      tauto
    · simp only [List.mem_cons]

theorem mem_sortByBranch {y : Repository} {l : List Repository} :
    y ∈ sortByBranch l ↔ y ∈ l := by
  induction l with
  | nil => simp [sortByBranch]
  | cons x xs ih => simp [sortByBranch, mem_insertByBranch, ih]

/-- The world created by a `create_repo` run that passes the existence
pre-check: the store directory and target directory exist and the serialized
record file has been appended. -/
theorem create_repo_world (branch : List Char) (cfg : Config) (o : CreateOracles)
    (w : World) (cd : List Char) (hcd : o.current_dir = some cd)
    (htarget : pathJoin cfg.repo_sync_path
        (branch_to_directory_name (expand_alias branch cfg.branch_aliases o.shell)) ∉
        w.fs_dirs) :
    (create_repo branch cfg o w).2.1 =
      { w with
        fs_dirs := insertDir
          (pathJoin cfg.repo_sync_path
            (branch_to_directory_name (expand_alias branch cfg.branch_aliases o.shell)))
          (insertDir (pathJoin cfg.repo_sync_path ".trr-sys".data) w.fs_dirs),
        sys_files := w.sys_files ++
          [⟨o.ulid ++ ".json".data,
            some (o.ser
              { branch := expand_alias branch cfg.branch_aliases o.shell,
                created_at := o.now,
                directory := some (branch_to_directory_name
                  (expand_alias branch cfg.branch_aliases o.shell)) })⟩] } := by
  simp only [create_repo, htarget, if_false, hcd]
  cases hr : o.rsyncOk <;> cases hg : o.gitOk <;> cases ht : o.tmuxOk <;> rfl

/-- C7: a record serialized and written by creation is read back through
enumeration with identical branch, created_at and directory fields, given
serde's round-trip contract on that record. -/
theorem C7_roundtrip (branch : List Char) (cfg : Config) (o : CreateOracles)
    (w : World) (parse : List Char → Option RepositoryMetadata) (now2 : Nat)
    (cd : List Char) (hcd : o.current_dir = some cd)
    (htarget : pathJoin cfg.repo_sync_path
        (branch_to_directory_name (expand_alias branch cfg.branch_aliases o.shell)) ∉
        w.fs_dirs)
    (hparse : parse (o.ser
        { branch := expand_alias branch cfg.branch_aliases o.shell,
          created_at := o.now,
          directory := some (branch_to_directory_name
            (expand_alias branch cfg.branch_aliases o.shell)) }) =
      some { branch := expand_alias branch cfg.branch_aliases o.shell,
             created_at := o.now,
             directory := some (branch_to_directory_name
               (expand_alias branch cfg.branch_aliases o.shell)) }) :
    ∃ r ∈ get_repositories cfg.repo_sync_path (create_repo branch cfg o w).2.1
        parse now2,
      r.branch = expand_alias branch cfg.branch_aliases o.shell ∧
      r.created_at = o.now ∧
      r.directory = branch_to_directory_name
        (expand_alias branch cfg.branch_aliases o.shell) := by
  rw [create_repo_world branch cfg o w cd hcd htarget]
  refine ⟨{ _ulid := stripJsonSuffix (o.ulid ++ ".json".data),
            branch := expand_alias branch cfg.branch_aliases o.shell,
            directory := branch_to_directory_name
              (expand_alias branch cfg.branch_aliases o.shell),
            path := o.ulid ++ ".json".data,
            created_at := o.now }, ?_, rfl, rfl, rfl⟩
  unfold get_repositories
  rw [if_pos (mem_insertDir_of_mem (mem_insertDir_self _ _))]
  rw [mem_sortByBranch, List.mem_filterMap]
  refine ⟨⟨o.ulid ++ ".json".data,
    some (o.ser
      { branch := expand_alias branch cfg.branch_aliases o.shell,
        created_at := o.now,
        directory := some (branch_to_directory_name
          (expand_alias branch cfg.branch_aliases o.shell)) })⟩,
    List.mem_append_right _ (by simp), ?_⟩
  simp only [read_ulid_metadata, hparse, Option.getD_some]

/-- Witness for C7 with a one-record store and a codec that round-trips the
created record. -/
theorem C7_witness :
    ∃ r ∈ get_repositories ".trr".data
        (create_repo "b".data ⟨".trr".data, [], [], []⟩
          ⟨fun _ => none, "01".data, 7, some "/cur".data, fun _ => "S".data,
           true, true, true⟩
          ⟨[], [], [], []⟩).2.1
        (fun s => if s = "S".data then
          some { branch := "b".data, created_at := 7, directory := some "b".data }
          else none) 9,
      r.branch = expand_alias "b".data [] (fun _ => none) ∧
      r.created_at = 7 ∧
      r.directory = branch_to_directory_name (expand_alias "b".data [] (fun _ => none)) :=
  C7_roundtrip "b".data ⟨".trr".data, [], [], []⟩
    ⟨fun _ => none, "01".data, 7, some "/cur".data, fun _ => "S".data,
     true, true, true⟩
    ⟨[], [], [], []⟩ _ 9 "/cur".data rfl (by decide) (by decide)

/-! ## Selection and deletion orchestrator -/

/-- Embeds `find_tmux_session_or_window` (src/delete.rs lines 141-178): the
tmux window and session listings are drawn from the world; `repoPfx` stands
for the value of the repo-prefix derivation, `in_tmux` for the TMUX
environment variable being set. -/
def find_tmux_session_or_window (repoPfx branch : List Char) (in_tmux : Bool)
    (w : World) : Option (List Char × Bool) :=
  let name := repoPfx ++ "-".data ++ branch
  if in_tmux ∧ name ∈ w.tmux_windows then some (name, true)
  else if name ∈ w.tmux_sessions then some (name, false)
  else none

/-- Embeds `kill_tmux_session_or_window` (src/delete.rs lines 228-246) on the
world's tmux state. -/
def kill_tmux_session_or_window (name : List Char) (is_window : Bool)
    (w : World) : World :=
  if is_window then
    { w with tmux_windows := w.tmux_windows.filter fun n => decide (n ≠ name) }
  else
    { w with tmux_sessions := w.tmux_sessions.filter fun n => decide (n ≠ name) }

/-- Oracles for the environment of `delete_repo`: the skim selection oracle,
the stdin confirmation line, the tmux context, the repo prefix, and the
success of the tmux kill spawn, the directory removal and the record-file
removal. -/
structure DeleteOracles where
  select : (repos : List Repository) → Option (Fin repos.length)
  confirmInput : List Char
  in_tmux : Bool
  repoPfx : List Char
  killOk : Bool
  rmDirOk : Bool
  rmFileOk : Bool

/-- Embeds `select_repository_with_skim` (src/delete.rs lines 94-139); skim
is the selection oracle, `none` covering both abort and no selection. -/
def select_repository_with_skim (repos : List Repository)
    (sel : (rs : List Repository) → Option (Fin rs.length)) :
    Option (Fin repos.length) × List (List Char) :=
  if repos.isEmpty then (none, ["No repositories found.".data])
  else (sel repos, [])

/-- The record-file removal tail of `delete_repo` (src/delete.rs lines
290-292). -/
def recordPhase (repo : Repository) (o : DeleteOracles) (w : World)
    (msgs : List (List Char)) :
    Except (List Char) Unit × World × List (List Char) :=
  if o.rmFileOk then
    (.ok (),
     { w with sys_files := w.sys_files.filter fun e => decide (e.name ≠ repo.path) },
     msgs ++ ["Successfully deleted repository ".data ++ repo.branch])
  else (.error "failed to remove record file".data, w, msgs)

/-- The directory-removal step of `delete_repo` (src/delete.rs lines
284-288), followed by the record removal. -/
def removePhase (cfg : Config) (repo : Repository) (o : DeleteOracles)
    (w : World) (msgs : List (List Char)) :
    Except (List Char) Unit × World × List (List Char) :=
  let repo_dir := pathJoin cfg.repo_sync_path repo.directory
  if repo_dir ∈ w.fs_dirs then
    if o.rmDirOk then
      recordPhase repo o
        { w with fs_dirs := w.fs_dirs.filter fun d => decide (d ≠ repo_dir) }
        (msgs ++ ["Removing directory: ".data ++ repo_dir])
    else
      (.error "failed to remove directory".data, w,
       msgs ++ ["Removing directory: ".data ++ repo_dir])
  else recordPhase repo o w msgs

/-- Embeds `delete_repo` (src/delete.rs lines 248-298). Returns the result,
the final world, and every line printed along the modelled path (the screen
clear prints nothing). -/
def delete_repo (cfg : Config) (parse : List Char → Option RepositoryMetadata)
    (now : Nat) (o : DeleteOracles) (w : World) :
    Except (List Char) Unit × World × List (List Char) :=
  let repositories := get_repositories cfg.repo_sync_path w parse now
  let sel := select_repository_with_skim repositories o.select
  match sel.1 with
  | some index =>
    let repo := repositories.get index
    let msgs := sel.2 ++
      ["Selected repository: ".data ++ repo.branch,
       "Created at: ".data ++ Nat.toDigits 10 repo.created_at,
       "Are you sure you want to delete this repository? [y/N]: ".data]
    if (trimChars o.confirmInput).map Char.toLower ≠ "y".data then
      (.ok (), w, msgs ++ ["Deletion cancelled.".data])
    else
      match find_tmux_session_or_window o.repoPfx repo.branch o.in_tmux w with
      | some (tmux_name, is_window) =>
        let msgs1 := msgs ++
          ["Killing tmux ".data ++
            (if is_window then "window".data else "session".data) ++
            ": ".data ++ tmux_name]
        if o.killOk then
          removePhase cfg repo o (kill_tmux_session_or_window tmux_name is_window w)
            msgs1
        else (.error "failed to invoke tmux kill".data, w, msgs1)
      | none => removePhase cfg repo o w msgs
  | none => (.ok (), w, sel.2 ++ ["No repository selected.".data])

theorem isEmpty_false_of_fin {l : List Repository} (i : Fin l.length) :
    l.isEmpty = false := by
  cases l with
  | nil => exact absurd i.isLt (by simp)
  | cons a as => rfl

/-- C4 counterexample: the confirmation answer Y differs from y, yet
`delete_repo` still deletes the record file, because the code lowercases the
trimmed input before comparing. -/
theorem C4_counterexample :
    "Y".data ≠ "y".data ∧
    trimChars "Y\n".data ≠ "y".data ∧
    (delete_repo ⟨".trr".data, [], [], []⟩ (fun _ => none) 0
      ⟨fun rs => if h : 0 < rs.length then some ⟨0, h⟩ else none,
       "Y\n".data, false, "tr".data, true, true, true⟩
      ⟨[pathJoin ".trr".data ".trr-sys".data],
       [⟨"01.json".data, some "b".data⟩], [], []⟩).2.1.sys_files = [] := by
  refine ⟨by decide, by decide, by decide⟩

/-- C4 amended: for every confirmation answer whose trimmed and lowercased
form is not y, `delete_repo` performs no destructive action: the world
(record files, directories, tmux windows and sessions) is returned untouched
and only the cancellation is reported. -/
theorem C4_amended_cancel_leaves_state (cfg : Config)
    (parse : List Char → Option RepositoryMetadata) (now : Nat)
    (o : DeleteOracles) (w : World)
    (index : Fin (get_repositories cfg.repo_sync_path w parse now).length)
    (hsel : o.select (get_repositories cfg.repo_sync_path w parse now) = some index)
    (hconfirm : (trimChars o.confirmInput).map Char.toLower ≠ "y".data) :
    delete_repo cfg parse now o w =
      (.ok (), w,
       ["Selected repository: ".data ++
          ((get_repositories cfg.repo_sync_path w parse now).get index).branch,
        "Created at: ".data ++
          Nat.toDigits 10
            ((get_repositories cfg.repo_sync_path w parse now).get index).created_at,
        "Are you sure you want to delete this repository? [y/N]: ".data,
        "Deletion cancelled.".data]) := by
  have hne := isEmpty_false_of_fin index
  simp only [delete_repo, select_repository_with_skim, hne, Bool.false_eq_true,
    if_false, hsel, List.nil_append]
  rw [if_pos hconfirm]
  rfl

/-- Witness for the amended C4: answering no leaves the world untouched. -/
theorem C4_amended_witness :
    delete_repo ⟨".trr".data, [], [], []⟩ (fun _ => none) 0
      ⟨fun rs => if h : 0 < rs.length then some ⟨0, h⟩ else none,
       "n\n".data, false, "tr".data, true, true, true⟩
      ⟨[pathJoin ".trr".data ".trr-sys".data],
       [⟨"01.json".data, some "b".data⟩], [], []⟩ =
      (.ok (),
       ⟨[pathJoin ".trr".data ".trr-sys".data],
        [⟨"01.json".data, some "b".data⟩], [], []⟩,
       ["Selected repository: b".data,
        "Created at: 0".data,
        "Are you sure you want to delete this repository? [y/N]: ".data,
        "Deletion cancelled.".data]) := by
  have h := C4_amended_cancel_leaves_state ⟨".trr".data, [], [], []⟩ (fun _ => none) 0
    ⟨fun rs => if h : 0 < rs.length then some ⟨0, h⟩ else none,
     "n\n".data, false, "tr".data, true, true, true⟩
    ⟨[pathJoin ".trr".data ".trr-sys".data],
     [⟨"01.json".data, some "b".data⟩], [], []⟩
    ⟨0, by decide⟩ rfl (by decide)
  exact h.trans (by rfl)

/-- Substring test: does the needle occur contiguously inside the hay? Used
to state what a printed line reports. -/
def hasInfix (needle : List Char) : List Char → Bool
  | [] => needle.isEmpty
  | c :: t => needle.isPrefixOf (c :: t) || hasInfix needle t

/-- C2 counterexample: a selected record whose branch has no live tmux window
or session is deleted (directory and record file both removed) but no printed
line reports no session, contradicting the claimed report. -/
theorem C2_counterexample :
    (find_tmux_session_or_window "tr".data "b".data false
      ⟨[pathJoin ".trr".data ".trr-sys".data, pathJoin ".trr".data "b".data],
       [⟨"01.json".data, some "b".data⟩], [], []⟩ = none) ∧
    ((delete_repo ⟨".trr".data, [], [], []⟩ (fun _ => none) 0
      ⟨fun rs => if h : 0 < rs.length then some ⟨0, h⟩ else none,
       "y\n".data, false, "tr".data, true, true, true⟩
      ⟨[pathJoin ".trr".data ".trr-sys".data, pathJoin ".trr".data "b".data],
       [⟨"01.json".data, some "b".data⟩], [], []⟩).2.2.all
        fun m => !(hasInfix "no session".data m)) = true ∧
    (delete_repo ⟨".trr".data, [], [], []⟩ (fun _ => none) 0
      ⟨fun rs => if h : 0 < rs.length then some ⟨0, h⟩ else none,
       "y\n".data, false, "tr".data, true, true, true⟩
      ⟨[pathJoin ".trr".data ".trr-sys".data, pathJoin ".trr".data "b".data],
       [⟨"01.json".data, some "b".data⟩], [], []⟩).2.1.sys_files = [] ∧
    pathJoin ".trr".data "b".data ∉
      (delete_repo ⟨".trr".data, [], [], []⟩ (fun _ => none) 0
        ⟨fun rs => if h : 0 < rs.length then some ⟨0, h⟩ else none,
         "y\n".data, false, "tr".data, true, true, true⟩
        ⟨[pathJoin ".trr".data ".trr-sys".data, pathJoin ".trr".data "b".data],
         [⟨"01.json".data, some "b".data⟩], [], []⟩).2.1.fs_dirs := by
  refine ⟨by decide, by decide, by decide, by decide⟩

/-- C2 amended: for every selected record whose branch has no matching live
tmux window or session, `delete_repo` silently skips session teardown
(printing only the selection header, the directory-removal line and the
success line, with no no-session report) and still removes both the
workspace directory and the record file. -/
theorem C2_amended_silent_removal (cfg : Config)
    (parse : List Char → Option RepositoryMetadata) (now : Nat)
    (o : DeleteOracles) (w : World)
    (index : Fin (get_repositories cfg.repo_sync_path w parse now).length)
    (hsel : o.select (get_repositories cfg.repo_sync_path w parse now) = some index)
    (hconfirm : (trimChars o.confirmInput).map Char.toLower = "y".data)
    (hfind : find_tmux_session_or_window o.repoPfx
        ((get_repositories cfg.repo_sync_path w parse now).get index).branch
        o.in_tmux w = none)
    (hdir : pathJoin cfg.repo_sync_path
        ((get_repositories cfg.repo_sync_path w parse now).get index).directory ∈
        w.fs_dirs)
    (hrmd : o.rmDirOk = true) (hrmf : o.rmFileOk = true) :
    delete_repo cfg parse now o w =
      (.ok (),
       { w with
         fs_dirs := w.fs_dirs.filter fun d => decide (d ≠
           pathJoin cfg.repo_sync_path
             ((get_repositories cfg.repo_sync_path w parse now).get index).directory),
         sys_files := w.sys_files.filter fun e => decide (e.name ≠
           ((get_repositories cfg.repo_sync_path w parse now).get index).path) },
       ["Selected repository: ".data ++
          ((get_repositories cfg.repo_sync_path w parse now).get index).branch,
        "Created at: ".data ++
          Nat.toDigits 10
            ((get_repositories cfg.repo_sync_path w parse now).get index).created_at,
        "Are you sure you want to delete this repository? [y/N]: ".data,
        "Removing directory: ".data ++
          pathJoin cfg.repo_sync_path
            ((get_repositories cfg.repo_sync_path w parse now).get index).directory,
        "Successfully deleted repository ".data ++
          ((get_repositories cfg.repo_sync_path w parse now).get index).branch]) := by
  have hne := isEmpty_false_of_fin index
  have hconfirm' : ¬((trimChars o.confirmInput).map Char.toLower ≠ "y".data) := by
    simp [hconfirm]
  simp only [delete_repo, select_repository_with_skim, hne, Bool.false_eq_true,
    if_false, hsel, List.nil_append]
  rw [if_neg hconfirm', hfind]
  simp only [removePhase, hdir, if_true, hrmd, recordPhase, hrmf]
  rfl

/-- Witness for the amended C2: a record with no live session is removed
together with its directory, with no teardown line printed. -/
theorem C2_amended_witness :
    delete_repo ⟨".trr".data, [], [], []⟩ (fun _ => none) 0
      ⟨fun rs => if h : 0 < rs.length then some ⟨0, h⟩ else none,
       "y\n".data, false, "tr".data, true, true, true⟩
      ⟨[pathJoin ".trr".data ".trr-sys".data, pathJoin ".trr".data "b".data],
       [⟨"01.json".data, some "b".data⟩], [], []⟩ =
      (.ok (),
       ⟨[pathJoin ".trr".data ".trr-sys".data], [], [], []⟩,
       ["Selected repository: b".data,
        "Created at: 0".data,
        "Are you sure you want to delete this repository? [y/N]: ".data,
        "Removing directory: ".data ++ pathJoin ".trr".data "b".data,
        "Successfully deleted repository b".data]) := by
  have h := C2_amended_silent_removal ⟨".trr".data, [], [], []⟩ (fun _ => none) 0
    ⟨fun rs => if h : 0 < rs.length then some ⟨0, h⟩ else none,
     "y\n".data, false, "tr".data, true, true, true⟩
    ⟨[pathJoin ".trr".data ".trr-sys".data, pathJoin ".trr".data "b".data],
     [⟨"01.json".data, some "b".data⟩], [], []⟩
    ⟨0, by decide⟩ rfl (by decide) (by decide) (by decide) rfl rfl
  exact h.trans (by rfl)
